import Mathlib

/-!
Verification development for the layout engine of the fontkit repository
(file src/layout/LayoutEngine.js).  The JavaScript source is shallowly
embedded: UTF-16 strings become lists of 16-bit code units (Nat), glyph
records become structures, and the external collaborators that the engine
consumes through narrow interfaces (the font's cmap processor, the shaping
backends, the Unicode fallback positioner and the kern processor) become
function-valued parameters, constrained only where the specification
constrains them.
-/

namespace Fontkit

/-- The kerning feature tag consulted by the orchestrator. -/
def kernTag : String := "kern"

/-- The font's codepoint map collaborator (the source's font._cmapProcessor):
a one-argument codepoint lookup and a two-argument base-plus-variation-selector
lookup, each producing a glyph id. -/
structure Cmap where
  lookup1 : Nat → Nat
  lookup2 : Nat → Nat → Nat

/-- One glyph-input unit (the source's GlyphInfo): glyph id, the source
codepoints (base, optionally followed by a variation selector), and the
recorded text offset, exactly the fields the engine reads and writes. -/
structure GlyphInfo where
  id : Nat
  codePoints : List Nat
  stringIndex : Int
deriving DecidableEq

/-- A glyph position record (the source's GlyphPosition): advances, offsets. -/
structure GlyphPosition where
  xAdvance : Int
  yAdvance : Int
  xOffset : Int
  yOffset : Int
deriving DecidableEq

/-- Modelled from the spec: the GlyphPosition constructor is outside src/;
per section 4.3 initial positions derive advance width only, with zero
offsets, matching the constructor's zero defaults. -/
def GlyphPosition.ofAdvance (xAdvance : Int) : GlyphPosition :=
  { xAdvance := xAdvance, yAdvance := 0, xOffset := 0, yOffset := 0 }

/-- The record a backend's position operation returns (the source reads only
its kern field): whether the backend applied the kerning feature. -/
structure PosResult where
  kern : Bool
deriving DecidableEq

/-- Modelled from the spec: the shaping backends (AAT and OpenType layout
engines) are outside src/.  Per section 6 every operation is optional; the
hasX flags model operation presence, and the operations are arbitrary
functions on the run's sequences.  position returns the applied-feature
record or null (none). -/
structure Engine where
  hasSetup : Bool
  setupFn : List GlyphInfo → List GlyphInfo
  hasSubstitute : Bool
  substituteFn : List GlyphInfo → List GlyphInfo
  hasPosition : Bool
  positionFn : List GlyphInfo → List GlyphPosition → List GlyphPosition × Option PosResult
  fallbackPosition : Bool
  hasCleanup : Bool
  availableFeatures : String → String → List String

/-- The font collaborator: capability flags read by the engine and the
lookup functions it consumes.  advanceWidth models the glyph metric read in
the position phase; glyphForCodePoint and getGlyph model the font's glyph
resolution calls (returning opaque glyph-id handles). -/
structure FontModel where
  cmap : Cmap
  kern : Bool
  morx : Bool
  GSUB : Bool
  GPOS : Bool
  advanceWidth : Nat → Int
  glyphForCodePoint : Nat → Nat
  getGlyph : Nat → Nat

/-- Modelled from the spec: the GlyphRun constructor is outside src/; per
section 3 the run's feature toggles are a mapping from feature tag to an
enabled/disabled boolean, absent entries meaning default.  The source reads
features.kern and writes features.kern = true. -/
abbrev FeatureMap := String → Option Bool

/-- Overwrite one feature toggle (the source's glyphRun.features.kern = true). -/
def setFeature (m : FeatureMap) (k : String) (v : Bool) : FeatureMap :=
  fun x => if x = k then some v else m x

/-- Backend selection, performed once at construction (source constructor):
morx wins, else GSUB or GPOS selects the OpenType engine, else none. -/
def selectEngine (font : FontModel) (aat ot : Engine) : Option Engine :=
  if font.morx = true then some aat
  else if font.GSUB = true ∨ font.GPOS = true then some ot
  else none

/-- The variation-selector classification from the source: codepoints in
FE00-FE0F or E0100-E01EF. -/
def isVS (code : Nat) : Bool :=
  (0xfe00 ≤ code ∧ code ≤ 0xfe0f) ∨ (0xe0100 ≤ code ∧ code ≤ 0xe01ef)

/-- The scanner's nextState value: 1 for a variation selector, 0 otherwise. -/
def vsState (code : Nat) : Int :=
  if isVS code then 1 else 0

/-- One UTF-16 decoding step of glyphsForString: read the code unit at idx,
and when it is a high surrogate immediately followed by a low surrogate,
combine the pair into one scalar value; returns the decoded codepoint and
the index just past its code units. -/
def decodeNext (s : List Nat) (idx : Nat) : Nat × Nat :=
  let code := s.getD idx 0
  if 0xd800 ≤ code ∧ code ≤ 0xdbff ∧ idx + 1 < s.length then
    let next := s.getD (idx + 1) 0
    if 0xdc00 ≤ next ∧ next ≤ 0xdfff then
      (((code &&& 0x3ff) <<< 10) + (next &&& 0x3ff) + 0x10000, idx + 2)
    else (code, idx + 1)
  else (code, idx + 1)

/-- The push step of the glyphsForString loop body: with the previous
codepoint last, the current codepoint code, the previous state and the next
state, emit one GlyphInfo exactly as the source does (state 0 and nextState 1:
a two-codepoint unit via the two-argument lookup; state 0 and nextState 0: a
one-codepoint unit via the one-argument lookup; otherwise nothing). -/
def scanEmit (cmap : Cmap) (last code : Nat) (state nextState : Int)
    (stringIndex : Int) : List GlyphInfo :=
  if state = 0 ∧ nextState = 1 then
    [{ id := cmap.lookup2 last code, codePoints := [last, code], stringIndex := stringIndex }]
  else if state = 0 ∧ nextState = 0 then
    [{ id := cmap.lookup1 last, codePoints := [last], stringIndex := stringIndex }]
  else []

/-- The while loop of glyphsForString, iteration-indexed by fuel.  Each loop
iteration runs while idx is at most the string length; it computes
stringIndex as idx - 1, decodes a codepoint when idx is in range (the final
flush iteration instead uses code 0 and nextState 0 and just advances idx),
pushes via scanEmit, and continues with (last, state) := (code, nextState).
The JavaScript initializes last to the sentinel -1, which is never emitted
because emission requires state = 0 while state starts at -1; we carry
last as a Nat initialized to 0.  Fuel bounds the iteration count; every
iteration strictly increases idx, so string length + 2 iterations always
suffice and the fuel pattern never alters the computed value. -/
def glyphScanAux (cmap : Cmap) (s : List Nat) :
    Nat → Nat → Nat → Int → List GlyphInfo
  | 0, _, _, _ => []
  | fuel + 1, idx, last, state =>
    if idx ≤ s.length then
      if idx < s.length then
        scanEmit cmap last (decodeNext s idx).1 state (vsState (decodeNext s idx).1)
            ((idx : Int) - 1) ++
          glyphScanAux cmap s fuel (decodeNext s idx).2 (decodeNext s idx).1
            (vsState (decodeNext s idx).1)
      else
        scanEmit cmap last 0 state 0 ((idx : Int) - 1) ++
          glyphScanAux cmap s fuel (idx + 1) 0 0
    else []

/-- The source's glyphsForString: the Cluster Builder, a single scan with one
unit of lookahead over the UTF-16 code units. -/
def glyphsForString (cmap : Cmap) (s : List Nat) : List GlyphInfo :=
  glyphScanAux cmap s (s.length + 2) 0 0 (-1)

/-- The source's isDefaultIgnorable: a pure classification of one codepoint,
switching on the plane (ch right-shifted by 16) and, in the BMP, on the high
byte (ch right-shifted by 8). -/
def isDefaultIgnorable (ch : Nat) : Bool :=
  if ch >>> 16 = 0 then
    if ch >>> 8 = 0x00 then decide (ch = 0x00AD)
    else if ch >>> 8 = 0x03 then decide (ch = 0x034F)
    else if ch >>> 8 = 0x06 then decide (ch = 0x061C)
    else if ch >>> 8 = 0x17 then decide (0x17B4 ≤ ch ∧ ch ≤ 0x17B5)
    else if ch >>> 8 = 0x18 then decide (0x180B ≤ ch ∧ ch ≤ 0x180E)
    else if ch >>> 8 = 0x20 then
      decide ((0x200B ≤ ch ∧ ch ≤ 0x200F) ∨ (0x202A ≤ ch ∧ ch ≤ 0x202E) ∨
        (0x2060 ≤ ch ∧ ch ≤ 0x206F))
    else if ch >>> 8 = 0xFE then decide ((0xFE00 ≤ ch ∧ ch ≤ 0xFE0F) ∨ ch = 0xFEFF)
    else if ch >>> 8 = 0xFF then decide (0xFFF0 ≤ ch ∧ ch ≤ 0xFFF8)
    else false
  else if ch >>> 16 = 0x01 then
    decide ((0x1BCA0 ≤ ch ∧ ch ≤ 0x1BCA3) ∨ (0x1D173 ≤ ch ∧ ch ≤ 0x1D17A))
  else if ch >>> 16 = 0x0E then decide (0xE0000 ≤ ch ∧ ch ≤ 0xE0FFF)
  else false

/-- The default-ignorable hiding pass (source's hideDefaultIgnorables): for
every glyph whose first source codepoint is default-ignorable, overwrite its
glyph id with the font's glyph for the space character and zero both
advances; all other fields and all other glyphs are untouched.  The source
reads codePoints[0]; headD 0 models the JavaScript undefined read on an
empty list, which the classifier likewise maps to false. -/
def hideGlyph (spaceId : Nat) (g : GlyphInfo) : GlyphInfo :=
  if isDefaultIgnorable (g.codePoints.headD 0) then { g with id := spaceId } else g

/-- The position update of the hiding pass: zero both advances of a hidden
glyph's position, leaving the offsets untouched. -/
def hidePos (g : GlyphInfo) (p : GlyphPosition) : GlyphPosition :=
  if isDefaultIgnorable (g.codePoints.headD 0) then { p with xAdvance := 0, yAdvance := 0 } else p

/-- The source's hideDefaultIgnorables over both parallel sequences.  The
JavaScript loop iterates over the glyph indices, mutating glyphs[i] and
positions[i]; position entries beyond the glyph count are untouched. -/
def hideDefaultIgnorables (font : FontModel) (glyphs : List GlyphInfo)
    (positions : List GlyphPosition) : List GlyphInfo × List GlyphPosition :=
  let space := font.glyphForCodePoint 0x20
  (glyphs.map (hideGlyph space),
    List.zipWith hidePos glyphs positions ++ positions.drop glyphs.length)

/-- The gating value the source calls positioned: the applied-feature record
returned by the backend position operation, or none when no such operation
ran or it returned null.  reportedKern is the truthiness of positioned.kern
(false when positioned is null). -/
def reportedKern : Option PosResult → Bool
  | some pr => pr.kern
  | none => false

/-- The backend step of the position phase: call engine.position when the
engine exists and has one (possibly rewriting the positions and returning
the applied-feature record); the Bool records whether the call was made. -/
def enginePositionStep (engine : Option Engine) (glyphs : List GlyphInfo)
    (positions : List GlyphPosition) :
    List GlyphPosition × Option PosResult × Bool :=
  match engine with
  | some e =>
    if e.hasPosition = true then
      ((e.positionFn glyphs positions).1, (e.positionFn glyphs positions).2, true)
    else (positions, none, false)
  | none => (positions, none, false)

/-- The observable outcome of the position phase, with flags recording which
fallback components ran. -/
structure PositionOutcome where
  glyphs : List GlyphInfo
  positions : List GlyphPosition
  features : FeatureMap
  positioned : Option PosResult
  positionRan : Bool
  ranFallback : Bool
  ranKern : Bool

/-- The source's position method: build initial positions from each glyph's
advance width, call the backend position operation if present, run the
Unicode fallback positioner when positioned is null and either no engine
exists or the engine declares fallbackPosition, and independently run the
kern processor when the backend did not report kerning, the caller has not
set the kern feature to false, and the font has a kern table (setting
features.kern to true in that case).  uni and kernP stand for the
UnicodeLayoutEngine.positionGlyphs and KernProcessor.process collaborators,
whose construction from the font the source caches; neither takes or writes
the feature map. -/
def positionPhase (font : FontModel) (engine : Option Engine)
    (uni kernP : List GlyphInfo → List GlyphPosition → List GlyphPosition)
    (glyphs : List GlyphInfo) (features : FeatureMap) : PositionOutcome :=
  let positions0 := glyphs.map fun g => GlyphPosition.ofAdvance (font.advanceWidth g.id)
  let step := enginePositionStep engine glyphs positions0
  let positioned := step.2.1
  let fallbackCond := positioned.isNone && (engine.map Engine.fallbackPosition).getD true
  let positions2 := if fallbackCond then uni glyphs step.1 else step.1
  if reportedKern positioned = false ∧ features kernTag ≠ some false ∧ font.kern = true then
    { glyphs := glyphs, positions := kernP glyphs positions2,
      features := setFeature features kernTag true, positioned := positioned,
      positionRan := step.2.2, ranFallback := fallbackCond, ranKern := true }
  else
    { glyphs := glyphs, positions := positions2, features := features,
      positioned := positioned, positionRan := step.2.2,
      ranFallback := fallbackCond, ranKern := false }

/-- The setup and substitute phases applied to the cluster sequence: each
backend operation runs only when present (source's layout and substitute). -/
def shapedGlyphs (font : FontModel) (engine : Option Engine) (units : List Nat) :
    List GlyphInfo :=
  let glyphs := glyphsForString font.cmap units
  let glyphs1 := match engine with
    | some e => if e.hasSetup = true then e.setupFn glyphs else glyphs
    | none => glyphs
  match engine with
  | some e => if e.hasSubstitute = true then e.substituteFn glyphs1 else glyphs1
  | none => glyphs1

/-- The observable outcome of one layout call: the final glyph handles,
positions and string indices of the returned GlyphRun, the feature map, the
backend's applied-feature record, and flags recording which backend phases
and fallback components were invoked. -/
structure LayoutResult where
  glyphs : List Nat
  positions : List GlyphPosition
  stringIndices : List Int
  features : FeatureMap
  positioned : Option PosResult
  setupRan : Bool
  substituteRan : Bool
  positionRan : Bool
  cleanupRan : Bool
  ranFallback : Bool
  ranKern : Bool

/-- The source's layout method: build the cluster sequence; if it is empty,
return immediately with empty positions before any backend phase; otherwise
run setup, substitute, position, the default-ignorable hiding pass and
cleanup, then map each surviving unit's offset into stringIndices and each
glyph id through the font's glyph lookup.  Script auto-detection only
chooses a script argument and is not consulted by any modelled behavior. -/
def layout (font : FontModel) (engine : Option Engine)
    (uni kernP : List GlyphInfo → List GlyphPosition → List GlyphPosition)
    (units : List Nat) (features : FeatureMap) : LayoutResult :=
  if (glyphsForString font.cmap units).length = 0 then
    { glyphs := [], positions := [], stringIndices := [], features := features,
      positioned := none, setupRan := false, substituteRan := false,
      positionRan := false, cleanupRan := false, ranFallback := false,
      ranKern := false }
  else
    let po := positionPhase font engine uni kernP (shapedGlyphs font engine units) features
    let hidden := hideDefaultIgnorables font po.glyphs po.positions
    { glyphs := hidden.1.map fun g => font.getGlyph g.id,
      positions := hidden.2,
      stringIndices := hidden.1.map GlyphInfo.stringIndex,
      features := po.features,
      positioned := po.positioned,
      setupRan := (engine.map Engine.hasSetup).getD false,
      substituteRan := (engine.map Engine.hasSubstitute).getD false,
      positionRan := po.positionRan,
      cleanupRan := (engine.map Engine.hasCleanup).getD false,
      ranFallback := po.ranFallback,
      ranKern := po.ranKern }

/-- The source's getAvailableFeatures: the backend's reported tags (empty
without a backend). -/
def backendFeatures (engine : Option Engine) (script language : String) : List String :=
  match engine with
  | some e => e.availableFeatures script language
  | none => []

/-- The source's getAvailableFeatures: backend tags in backend order, with
the kern tag appended when the font has a kern table and the list does not
already contain it. -/
def getAvailableFeatures (font : FontModel) (engine : Option Engine)
    (script language : String) : List String :=
  let features := backendFeatures engine script language
  if font.kern = true ∧ kernTag ∉ features then features ++ [kernTag] else features

/-! Reference formulation of the Cluster Builder, used to characterize
glyphsForString.  It follows the two-stage description of section 4.2 of the
spec: first decode the UTF-16 code units into a stream of codepoints (each
entry carrying its start offset, scalar value and code-unit count), then
fold the base/variation-selector pairing over that stream.  The offset each
unit records is stated as start + length - 1 of its base codepoint, the
formula the source's scan actually produces. -/

/-- An entry of the decoded stream: (start offset, codepoint, code units). -/
abbrev DecodedEntry := Nat × Nat × Nat

/-- Decode the stream of codepoints starting at idx, fuel-indexed; fuel
equal to the number of remaining code units always suffices because every
decode step consumes at least one unit. -/
def decodePointsAux (s : List Nat) : Nat → Nat → List DecodedEntry
  | 0, _ => []
  | fuel + 1, idx =>
    if idx < s.length then
      (idx, (decodeNext s idx).1, (decodeNext s idx).2 - idx) ::
        decodePointsAux s fuel (decodeNext s idx).2
    else []

/-- The decoded codepoint stream from position idx to the end. -/
def decodeFrom (s : List Nat) (idx : Nat) : List DecodedEntry :=
  decodePointsAux s (s.length - idx) idx

/-- The decoded codepoint stream of a whole string. -/
def decodePoints (s : List Nat) : List DecodedEntry :=
  decodeFrom s 0

/-- Flush a pending base (codepoint and end offset) as a single-codepoint
unit recording offset end - 1. -/
def cFlush (cmap : Cmap) : Option (Nat × Nat) → List GlyphInfo
  | none => []
  | some (b, be) => [{ id := cmap.lookup1 b, codePoints := [b], stringIndex := (be : Int) - 1 }]

/-- Pending-base transition: a variation selector clears the pending base, an
ordinary codepoint becomes the new pending base with its end offset. -/
def cStepPending (p : Option (Nat × Nat)) (e : DecodedEntry) : Option (Nat × Nat) :=
  if isVS e.2.1 then none else some (e.2.1, e.1 + e.2.2)

/-- Units emitted on consuming one stream entry: a variation selector pairs
with a pending base into one two-codepoint unit (recording the base's
offset), otherwise the pending base is flushed alone. -/
def cStepEmit (cmap : Cmap) (p : Option (Nat × Nat)) (e : DecodedEntry) : List GlyphInfo :=
  if isVS e.2.1 then
    match p with
    | some (b, be) =>
      [{ id := cmap.lookup2 b e.2.1, codePoints := [b, e.2.1], stringIndex := (be : Int) - 1 }]
    | none => []
  else cFlush cmap p

/-- The cluster decomposition over a decoded stream, flushing the final
pending base at the end of the stream. -/
def clusterize (cmap : Cmap) (p : Option (Nat × Nat)) : List DecodedEntry → List GlyphInfo
  | [] => cFlush cmap p
  | e :: rest => cStepEmit cmap p e ++ clusterize cmap (cStepPending p e) rest

/-- The units emitted while consuming a stream, without the final flush. -/
def cEmits (cmap : Cmap) (p : Option (Nat × Nat)) : List DecodedEntry → List GlyphInfo
  | [] => []
  | e :: rest => cStepEmit cmap p e ++ cEmits cmap (cStepPending p e) rest

/-- The pending base left after consuming a stream. -/
def pendAfter (p : Option (Nat × Nat)) (es : List DecodedEntry) : Option (Nat × Nat) :=
  es.foldl cStepPending p

/-! Concrete collaborator instances, used by the witness and counterexample
theorems to evaluate the engine on explicit inputs. -/

/-- A concrete codepoint map whose two lookups are distinguishable. -/
def cmapC : Cmap :=
  { lookup1 := fun c => c + 1, lookup2 := fun c v => c + v }

/-- A concrete font with a legacy kern table and no shaping tables. -/
def fontC : FontModel :=
  { cmap := cmapC, kern := true, morx := false, GSUB := false, GPOS := false,
    advanceWidth := fun i => (i : Int), glyphForCodePoint := fun c => c,
    getGlyph := fun i => i }

/-- An in-place collaborator that leaves the positions unchanged. -/
def idPos : List GlyphInfo → List GlyphPosition → List GlyphPosition :=
  fun _ p => p

/-- The empty feature configuration: no tag explicitly set. -/
def noFeatures : FeatureMap := fun _ => none

/-- A concrete backend that has a position operation reporting an applied
feature set without kerning, while also declaring fallbackPosition. -/
def engineC : Engine :=
  { hasSetup := false, setupFn := fun g => g,
    hasSubstitute := false, substituteFn := fun g => g,
    hasPosition := true, positionFn := fun _ p => (p, some { kern := false }),
    fallbackPosition := true, hasCleanup := false,
    availableFeatures := fun _ _ => [] }

/-- A concrete backend whose substitute operation doubles the sequence. -/
def engineSub : Engine :=
  { engineC with hasSubstitute := true, substituteFn := fun g => g ++ g }

section Lemmas

/-- decodeNext always advances the scan position. -/
theorem decodeNext_lt (s : List Nat) (idx : Nat) : idx < (decodeNext s idx).2 := by
  unfold decodeNext
  dsimp only
  split
  · split
    · omega
    · omega
  · omega

/-- decodeNext never advances past the end of the string when it starts in
range. -/
theorem decodeNext_le (s : List Nat) (idx : Nat) (h : idx < s.length) :
    (decodeNext s idx).2 ≤ s.length := by
  unfold decodeNext
  dsimp only
  split
  · rename_i hcond
    split
    · omega
    · omega
  · omega

/-- The decoded stream does not depend on the fuel, once the fuel covers the
remaining code units. -/
theorem decodePointsAux_congr (s : List Nat) :
    ∀ f1 f2 idx, s.length - idx ≤ f1 → s.length - idx ≤ f2 →
      decodePointsAux s f1 idx = decodePointsAux s f2 idx := by
  intro f1
  induction f1 with
  | zero =>
    intro f2 idx h1 h2
    have hge : s.length ≤ idx := by omega
    cases f2 with
    | zero => rfl
    | succ g2 =>
      simp [decodePointsAux, Nat.not_lt.mpr hge]
  | succ g1 ih =>
    intro f2 idx h1 h2
    by_cases hlt : idx < s.length
    · cases f2 with
      | zero => omega
      | succ g2 =>
        have hnext := decodeNext_lt s idx
        simp only [decodePointsAux, if_pos hlt]
        refine congrArg _ (ih g2 (decodeNext s idx).2 ?_ ?_) <;> omega
    · cases f2 with
      | zero => simp [decodePointsAux, hlt]
      | succ g2 => simp [decodePointsAux, hlt]

/-- Unfolding the decoded stream at an in-range position. -/
theorem decodeFrom_cons (s : List Nat) (idx : Nat) (h : idx < s.length) :
    decodeFrom s idx =
      (idx, (decodeNext s idx).1, (decodeNext s idx).2 - idx) ::
        decodeFrom s (decodeNext s idx).2 := by
  have hnext := decodeNext_lt s idx
  have h1 : s.length - idx = (s.length - idx - 1) + 1 := by omega
  unfold decodeFrom
  rw [h1]
  simp only [decodePointsAux, if_pos h]
  refine congrArg _ (decodePointsAux_congr s _ _ _ ?_ ?_) <;> omega

/-- The decoded stream is empty at or past the end of the string. -/
theorem decodeFrom_nil (s : List Nat) (idx : Nat) (h : s.length ≤ idx) :
    decodeFrom s idx = [] := by
  unfold decodeFrom
  have h0 : s.length - idx = 0 := by omega
  rw [h0]
  rfl

/-- The scanner computes the cluster decomposition of the decoded stream:
with enough fuel, scanning from position idx in state 0 behaves like
clusterize with the pending base (last, idx), and in any other state like
clusterize with no pending base. -/
theorem glyphScanAux_eq (cmap : Cmap) (s : List Nat) :
    ∀ fuel idx last state, s.length + 1 - idx < fuel → idx ≤ s.length →
      glyphScanAux cmap s fuel idx last state =
        clusterize cmap (if state = 0 then some (last, idx) else none) (decodeFrom s idx) := by
  intro fuel
  induction fuel with
  | zero => intro idx last state h1 h2; omega
  | succ fuel ih =>
    intro idx last state h1 h2
    by_cases hlt : idx < s.length
    · have hlt2 := decodeNext_lt s idx
      have hle2 := decodeNext_le s idx hlt
      rw [decodeFrom_cons s idx hlt]
      simp only [glyphScanAux, if_pos h2, if_pos hlt, clusterize]
      rw [ih (decodeNext s idx).2 (decodeNext s idx).1 (vsState (decodeNext s idx).1)
        (by omega) hle2]
      by_cases hv : isVS (decodeNext s idx).1 = true
      · have hvs : vsState (decodeNext s idx).1 = 1 := by simp [vsState, hv]
        by_cases hst : state = 0
        · simp [scanEmit, cStepEmit, cStepPending, hvs, hst, hv]
        · simp [scanEmit, cStepEmit, cStepPending, hvs, hst, hv]
      · have hvs : vsState (decodeNext s idx).1 = 0 := by simp [vsState, hv]
        have harith : idx + ((decodeNext s idx).2 - idx) = (decodeNext s idx).2 := by omega
        by_cases hst : state = 0
        · simp [scanEmit, cStepEmit, cStepPending, cFlush, hvs, hst, hv, harith]
        · simp [scanEmit, cStepEmit, cStepPending, cFlush, hvs, hst, hv, harith]
    · have hidx : idx = s.length := by omega
      have hinner : glyphScanAux cmap s fuel (idx + 1) 0 0 = [] := by
        cases fuel with
        | zero => rfl
        | succ g => simp [glyphScanAux, show ¬(idx + 1 ≤ s.length) by omega]
      rw [decodeFrom_nil s idx (by omega)]
      simp only [glyphScanAux, if_pos h2, if_neg hlt, clusterize, hinner]
      by_cases hst : state = 0
      · simp [scanEmit, cFlush, hst]
      · simp [scanEmit, cFlush, hst]

/-- The Cluster Builder equals the reference cluster decomposition of the
decoded codepoint stream. -/
theorem glyphsForString_eq_clusterize (cmap : Cmap) (s : List Nat) :
    glyphsForString cmap s = clusterize cmap none (decodePoints s) := by
  unfold glyphsForString decodePoints
  rw [glyphScanAux_eq cmap s (s.length + 2) 0 0 (-1) (by omega) (by omega)]
  simp

/-- Cluster decomposition splits over stream concatenation, threading the
pending base. -/
theorem clusterize_append (cmap : Cmap) (xs : List DecodedEntry) :
    ∀ (p : Option (Nat × Nat)) (ys : List DecodedEntry),
      clusterize cmap p (xs ++ ys) =
        cEmits cmap p xs ++ clusterize cmap (pendAfter p xs) ys := by
  induction xs with
  | nil => intro p ys; simp [cEmits, pendAfter]
  | cons e rest ih =>
    intro p ys
    simp only [List.cons_append, clusterize, cEmits, List.append_eq, ih, pendAfter,
      List.foldl_cons, List.append_assoc]

/-- Every entry of the decoded stream is produced by decodeNext at its start
offset, and covers at least one code unit. -/
theorem decodePointsAux_mem (s : List Nat) :
    ∀ fuel idx e, e ∈ decodePointsAux s fuel idx →
      decodeNext s e.1 = (e.2.1, e.1 + e.2.2) ∧ 1 ≤ e.2.2 := by
  intro fuel
  induction fuel with
  | zero => intro idx e he; simp [decodePointsAux] at he
  | succ g ih =>
    intro idx e he
    by_cases hlt : idx < s.length
    · simp only [decodePointsAux, if_pos hlt, List.mem_cons] at he
      rcases he with he | he
      · subst he
        have hnext := decodeNext_lt s idx
        constructor
        · have : idx + ((decodeNext s idx).2 - idx) = (decodeNext s idx).2 := by omega
          simp [this]
        · simp; omega
      · exact ih _ e he
    · simp [decodePointsAux, hlt] at he

/-- Same fact for the stream of a whole string. -/
theorem decodePoints_mem (s : List Nat) (e : DecodedEntry) (he : e ∈ decodePoints s) :
    decodeNext s e.1 = (e.2.1, e.1 + e.2.2) ∧ 1 ≤ e.2.2 :=
  decodePointsAux_mem s _ _ e he

/-- Offset provenance of the cluster decomposition: every emitted unit takes
its recorded offset from the end of its base codepoint's encoding — either
the pending base passed in, or an entry (st, base, l) of the stream with
recorded offset st + l - 1. -/
theorem clusterize_offsets (cmap : Cmap) :
    ∀ (es : List DecodedEntry) (p : Option (Nat × Nat)) u, u ∈ clusterize cmap p es →
      (∃ b be, p = some (b, be) ∧ u.codePoints.headD 0 = b ∧ u.stringIndex = (be : Int) - 1) ∨
      (∃ st l, (st, u.codePoints.headD 0, l) ∈ es ∧ u.stringIndex = (st : Int) + l - 1) := by
  intro es
  induction es with
  | nil =>
    intro p u hu
    rcases p with _ | ⟨b, be⟩
    · simp [clusterize, cFlush] at hu
    · simp only [clusterize, cFlush, List.mem_singleton] at hu
      subst hu
      exact Or.inl ⟨b, be, rfl, rfl, rfl⟩
  | cons e rest ih =>
    intro p u hu
    simp only [clusterize, List.mem_append] at hu
    rcases hu with hu | hu
    · -- emitted while consuming e
      by_cases hv : isVS e.2.1 = true
      · simp only [cStepEmit, if_pos hv] at hu
        rcases p with _ | ⟨b, be⟩
        · simp at hu
        · simp only [List.mem_singleton] at hu
          subst hu
          exact Or.inl ⟨b, be, rfl, rfl, rfl⟩
      · simp only [cStepEmit, if_neg hv] at hu
        rcases p with _ | ⟨b, be⟩
        · simp [cFlush] at hu
        · simp only [cFlush, List.mem_singleton] at hu
          subst hu
          exact Or.inl ⟨b, be, rfl, rfl, rfl⟩
    · -- emitted further down, with pending cStepPending p e
      rcases ih (cStepPending p e) u hu with ⟨b, be, hpend, hhead, hidx⟩ | ⟨st, l, hmem, hidx⟩
      · by_cases hv : isVS e.2.1 = true
        · simp [cStepPending, hv] at hpend
        · simp only [cStepPending, if_neg hv, Option.some.injEq] at hpend
          refine Or.inr ⟨e.1, e.2.2, ?_, ?_⟩
          · have hb : b = e.2.1 := by
              have := congrArg Prod.fst hpend
              simpa using this.symm
            subst hb
            rw [hhead]
            exact List.mem_cons_self _ _
          · have hbe : be = e.1 + e.2.2 := by
              have := congrArg Prod.snd hpend
              simpa using this.symm
            subst hbe
            rw [hidx]
            push_cast
            ring
      · exact Or.inr ⟨st, l, List.mem_cons_of_mem _ hmem, hidx⟩

/-- The hiding pass on a cons cell of both sequences. -/
theorem hideDefaultIgnorables_cons (font : FontModel) (g : GlyphInfo) (gs : List GlyphInfo)
    (p : GlyphPosition) (ps : List GlyphPosition) :
    hideDefaultIgnorables font (g :: gs) (p :: ps) =
      (hideGlyph (font.glyphForCodePoint 0x20) g :: (hideDefaultIgnorables font gs ps).1,
        hidePos g p :: (hideDefaultIgnorables font gs ps).2) := by
  simp [hideDefaultIgnorables]

/-- The hiding pass preserves both sequence lengths. -/
theorem hideDefaultIgnorables_lengths (font : FontModel) (glyphs : List GlyphInfo)
    (positions : List GlyphPosition) :
    (hideDefaultIgnorables font glyphs positions).1.length = glyphs.length ∧
      (hideDefaultIgnorables font glyphs positions).2.length = positions.length := by
  constructor
  · simp [hideDefaultIgnorables]
  · simp only [hideDefaultIgnorables, List.length_append, List.length_zipWith,
      List.length_drop]
    omega

/-- Pointwise description of the hiding pass at every index present in both
sequences. -/
theorem hideDefaultIgnorables_getElem (font : FontModel) :
    ∀ (glyphs : List GlyphInfo) (positions : List GlyphPosition) (i : Nat)
      (hg : i < glyphs.length) (hp : i < positions.length),
      (hideDefaultIgnorables font glyphs positions).1[i]? =
          some (hideGlyph (font.glyphForCodePoint 0x20) (glyphs.get ⟨i, hg⟩)) ∧
        (hideDefaultIgnorables font glyphs positions).2[i]? =
          some (hidePos (glyphs.get ⟨i, hg⟩) (positions.get ⟨i, hp⟩)) := by
  intro glyphs
  induction glyphs with
  | nil => intro positions i hg hp; simp at hg
  | cons g gs ih =>
    intro positions i hg hp
    rcases positions with _ | ⟨p, ps⟩
    · simp at hp
    · rw [hideDefaultIgnorables_cons]
      rcases i with _ | j
      · simp
      · have hg2 : j < gs.length := by simpa using hg
        have hp2 : j < ps.length := by simpa using hp
        have := ih ps j hg2 hp2
        simpa using this

/-- The applied-feature record the position phase records is the backend
step's result, in both kern branches. -/
theorem positionPhase_positioned (font : FontModel) (engine : Option Engine)
    (uni kernP : List GlyphInfo → List GlyphPosition → List GlyphPosition)
    (glyphs : List GlyphInfo) (features : FeatureMap) :
    (positionPhase font engine uni kernP glyphs features).positioned =
      (enginePositionStep engine glyphs
        (glyphs.map fun g => GlyphPosition.ofAdvance (font.advanceWidth g.id))).2.1 := by
  unfold positionPhase
  dsimp only
  split <;> rfl

/-- The glyph sequence is untouched by the position phase. -/
theorem positionPhase_glyphs (font : FontModel) (engine : Option Engine)
    (uni kernP : List GlyphInfo → List GlyphPosition → List GlyphPosition)
    (glyphs : List GlyphInfo) (features : FeatureMap) :
    (positionPhase font engine uni kernP glyphs features).glyphs = glyphs := by
  unfold positionPhase
  dsimp only
  split <;> rfl

/-- The kern processor runs exactly when the backend did not report kerning,
the caller did not disable the kern feature, and the font has a kern table. -/
theorem positionPhase_ranKern_iff (font : FontModel) (engine : Option Engine)
    (uni kernP : List GlyphInfo → List GlyphPosition → List GlyphPosition)
    (glyphs : List GlyphInfo) (features : FeatureMap) :
    (positionPhase font engine uni kernP glyphs features).ranKern = true ↔
      (reportedKern (positionPhase font engine uni kernP glyphs features).positioned = false ∧
        features kernTag ≠ some false ∧ font.kern = true) := by
  rw [positionPhase_positioned]
  unfold positionPhase
  dsimp only
  split
  · rename_i h; simpa using h
  · rename_i h; simpa using h

/-- When the kern processor ran, the run's kern feature flag is set. -/
theorem positionPhase_kernFlag (font : FontModel) (engine : Option Engine)
    (uni kernP : List GlyphInfo → List GlyphPosition → List GlyphPosition)
    (glyphs : List GlyphInfo) (features : FeatureMap) :
    (positionPhase font engine uni kernP glyphs features).ranKern = true →
      (positionPhase font engine uni kernP glyphs features).features kernTag = some true := by
  unfold positionPhase
  dsimp only
  split
  · intro _; simp [setFeature]
  · intro h; simp at h

/-- The fallback mark positioner runs exactly when the backend produced no
applied-feature record and either no backend exists or the backend declares
fallbackPosition. -/
theorem positionPhase_ranFallback_iff (font : FontModel) (engine : Option Engine)
    (uni kernP : List GlyphInfo → List GlyphPosition → List GlyphPosition)
    (glyphs : List GlyphInfo) (features : FeatureMap) :
    (positionPhase font engine uni kernP glyphs features).ranFallback = true ↔
      ((positionPhase font engine uni kernP glyphs features).positioned = none ∧
        (engine.map Engine.fallbackPosition).getD true = true) := by
  rw [positionPhase_positioned]
  unfold positionPhase
  dsimp only
  split <;>
    simp [Bool.and_eq_true, Option.isNone_iff_eq_none]

/-- The backend position step preserves the length of the position sequence,
given that every engine's position operation mutates in place. -/
theorem enginePositionStep_length (engine : Option Engine) (glyphs : List GlyphInfo)
    (positions : List GlyphPosition)
    (he : ∀ e, engine = some e → ∀ g p, ((e.positionFn g p).1).length = p.length) :
    (enginePositionStep engine glyphs positions).1.length = positions.length := by
  rcases engine with _ | e
  · rfl
  · unfold enginePositionStep
    dsimp only
    split
    · exact he e rfl glyphs positions
    · rfl

/-- The position phase produces exactly one position per glyph, given that
the backend position operation and both fallback processors mutate their
position sequences in place. -/
theorem positionPhase_length (font : FontModel) (engine : Option Engine)
    (uni kernP : List GlyphInfo → List GlyphPosition → List GlyphPosition)
    (glyphs : List GlyphInfo) (features : FeatureMap)
    (hu : ∀ g p, (uni g p).length = p.length)
    (hk : ∀ g p, (kernP g p).length = p.length)
    (he : ∀ e, engine = some e → ∀ g p, ((e.positionFn g p).1).length = p.length) :
    (positionPhase font engine uni kernP glyphs features).positions.length = glyphs.length := by
  have hstep := enginePositionStep_length engine glyphs
    (glyphs.map fun g => GlyphPosition.ofAdvance (font.advanceWidth g.id)) he
  unfold positionPhase
  dsimp only
  split <;> split <;> simp_all

/-- Outside the early return, every field of the layout result comes from
the position phase on the shaped glyph sequence followed by the hiding
pass. -/
theorem layout_eq_of_nonempty (font : FontModel) (engine : Option Engine)
    (uni kernP : List GlyphInfo → List GlyphPosition → List GlyphPosition)
    (units : List Nat) (features : FeatureMap)
    (h : glyphsForString font.cmap units ≠ []) :
    layout font engine uni kernP units features =
      { glyphs := (hideDefaultIgnorables font
          (positionPhase font engine uni kernP (shapedGlyphs font engine units) features).glyphs
          (positionPhase font engine uni kernP (shapedGlyphs font engine units)
            features).positions).1.map (fun g => font.getGlyph g.id),
        positions := (hideDefaultIgnorables font
          (positionPhase font engine uni kernP (shapedGlyphs font engine units) features).glyphs
          (positionPhase font engine uni kernP (shapedGlyphs font engine units)
            features).positions).2,
        stringIndices := (hideDefaultIgnorables font
          (positionPhase font engine uni kernP (shapedGlyphs font engine units) features).glyphs
          (positionPhase font engine uni kernP (shapedGlyphs font engine units)
            features).positions).1.map GlyphInfo.stringIndex,
        features := (positionPhase font engine uni kernP (shapedGlyphs font engine units)
          features).features,
        positioned := (positionPhase font engine uni kernP (shapedGlyphs font engine units)
          features).positioned,
        setupRan := (engine.map Engine.hasSetup).getD false,
        substituteRan := (engine.map Engine.hasSubstitute).getD false,
        positionRan := (positionPhase font engine uni kernP (shapedGlyphs font engine units)
          features).positionRan,
        cleanupRan := (engine.map Engine.hasCleanup).getD false,
        ranFallback := (positionPhase font engine uni kernP (shapedGlyphs font engine units)
          features).ranFallback,
        ranKern := (positionPhase font engine uni kernP (shapedGlyphs font engine units)
          features).ranKern } := by
  have h0 : ¬((glyphsForString font.cmap units).length = 0) := by
    simpa [List.length_eq_zero] using h
  unfold layout
  rw [if_neg h0]

end Lemmas

section Claims

/-- C4: isDefaultIgnorable is a pure function of one codepoint returning
true exactly for U+00AD, U+034F, U+061C, U+17B4-17B5, U+180B-180E,
U+200B-200F, U+202A-202E, U+2060-206F, U+FE00-FE0F, U+FEFF, U+FFF0-FFF8,
U+1BCA0-1BCA3, U+1D173-1D17A and U+E0000-E0FFF, and false for every other
codepoint — in particular false for U+115F, U+1160, U+3164, U+FFA0 and
U+0041, and correct at every range boundary and its neighbours, all of
which are instances of this characterization. -/
theorem isDefaultIgnorable_characterization (ch : Nat) (hch : ch < 0x110000) :
    isDefaultIgnorable ch = true ↔
      (ch = 0x00AD ∨ ch = 0x034F ∨ ch = 0x061C ∨
        (0x17B4 ≤ ch ∧ ch ≤ 0x17B5) ∨ (0x180B ≤ ch ∧ ch ≤ 0x180E) ∨
        (0x200B ≤ ch ∧ ch ≤ 0x200F) ∨ (0x202A ≤ ch ∧ ch ≤ 0x202E) ∨
        (0x2060 ≤ ch ∧ ch ≤ 0x206F) ∨ (0xFE00 ≤ ch ∧ ch ≤ 0xFE0F) ∨ ch = 0xFEFF ∨
        (0xFFF0 ≤ ch ∧ ch ≤ 0xFFF8) ∨ (0x1BCA0 ≤ ch ∧ ch ≤ 0x1BCA3) ∨
        (0x1D173 ≤ ch ∧ ch ≤ 0x1D17A) ∨ (0xE0000 ≤ ch ∧ ch ≤ 0xE0FFF)) := by
  have h16 : ch >>> 16 = ch / 65536 := by
    rw [Nat.shiftRight_eq_div_pow]
  have h8 : ch >>> 8 = ch / 256 := by
    rw [Nat.shiftRight_eq_div_pow]
  unfold isDefaultIgnorable
  rw [h16, h8]
  split_ifs <;> simp only [decide_eq_true_eq, Bool.false_eq_true, false_iff] <;> omega

/-- Witness for C4 at the concrete codepoint U+E0001. -/
theorem isDefaultIgnorable_characterization_witness : isDefaultIgnorable 0xE0001 = true :=
  (isDefaultIgnorable_characterization 0xE0001 (by decide)).mpr (by decide)

/-- C9: for the empty input string the Cluster Builder returns no units and
the layout call short-circuits with empty glyph and position sequences,
invoking no backend phase (no setup, substitute, position or cleanup call)
and no fallback component. -/
theorem layout_empty_string (font : FontModel) (engine : Option Engine)
    (uni kernP : List GlyphInfo → List GlyphPosition → List GlyphPosition)
    (features : FeatureMap) :
    glyphsForString font.cmap [] = [] ∧
      (layout font engine uni kernP [] features).glyphs = [] ∧
      (layout font engine uni kernP [] features).positions = [] ∧
      (layout font engine uni kernP [] features).setupRan = false ∧
      (layout font engine uni kernP [] features).substituteRan = false ∧
      (layout font engine uni kernP [] features).positionRan = false ∧
      (layout font engine uni kernP [] features).cleanupRan = false ∧
      (layout font engine uni kernP [] features).ranFallback = false ∧
      (layout font engine uni kernP [] features).ranKern = false :=
  ⟨rfl, rfl, rfl, rfl, rfl, rfl, rfl, rfl, rfl⟩

/-- C8: in the hiding pass, a glyph whose first source codepoint is
default-ignorable gets its id overwritten with the font's glyph for U+0020
and both advances zeroed, offsets and string index untouched; every other
glyph and its position are left entirely unchanged; both sequence lengths
are preserved. -/
theorem hideDefaultIgnorables_spec (font : FontModel) (glyphs : List GlyphInfo)
    (positions : List GlyphPosition) (i : Nat)
    (hg : i < glyphs.length) (hp : i < positions.length) :
    ((hideDefaultIgnorables font glyphs positions).1.length = glyphs.length ∧
      (hideDefaultIgnorables font glyphs positions).2.length = positions.length) ∧
    (isDefaultIgnorable ((glyphs.get ⟨i, hg⟩).codePoints.headD 0) = true →
      (hideDefaultIgnorables font glyphs positions).1[i]? =
          some { glyphs.get ⟨i, hg⟩ with id := font.glyphForCodePoint 0x20 } ∧
        (hideDefaultIgnorables font glyphs positions).2[i]? =
          some { positions.get ⟨i, hp⟩ with xAdvance := 0, yAdvance := 0 }) ∧
    (isDefaultIgnorable ((glyphs.get ⟨i, hg⟩).codePoints.headD 0) = false →
      (hideDefaultIgnorables font glyphs positions).1[i]? = some (glyphs.get ⟨i, hg⟩) ∧
        (hideDefaultIgnorables font glyphs positions).2[i]? =
          some (positions.get ⟨i, hp⟩)) := by
  have hpt := hideDefaultIgnorables_getElem font glyphs positions i hg hp
  refine ⟨hideDefaultIgnorables_lengths font glyphs positions, ?_, ?_⟩
  · intro hig
    rw [hpt.1, hpt.2]
    unfold hideGlyph hidePos
    rw [if_pos hig, if_pos hig]
    exact ⟨rfl, rfl⟩
  · intro hig
    have hneg : ¬ (isDefaultIgnorable ((glyphs.get ⟨i, hg⟩).codePoints.headD 0) = true) := by
      rw [hig]; decide
    rw [hpt.1, hpt.2]
    unfold hideGlyph hidePos
    rw [if_neg hneg, if_neg hneg]
    exact ⟨rfl, rfl⟩

/-- Witness for C8 on concrete sequences containing one default-ignorable
glyph (U+00AD) at index 0. -/
theorem hideDefaultIgnorables_spec_witness :
    ((hideDefaultIgnorables fontC [GlyphInfo.mk 7 [0x00AD] 0]
        [GlyphPosition.mk 5 6 1 2]).1.length = 1 ∧
      (hideDefaultIgnorables fontC [GlyphInfo.mk 7 [0x00AD] 0]
        [GlyphPosition.mk 5 6 1 2]).2.length = 1) ∧
    (isDefaultIgnorable (((
        [GlyphInfo.mk 7 [0x00AD] 0].get ⟨0, by decide⟩)).codePoints.headD 0) = true →
      (hideDefaultIgnorables fontC [GlyphInfo.mk 7 [0x00AD] 0]
          [GlyphPosition.mk 5 6 1 2]).1[0]? =
          some { [GlyphInfo.mk 7 [0x00AD] 0].get ⟨0, by decide⟩ with
            id := fontC.glyphForCodePoint 0x20 } ∧
        (hideDefaultIgnorables fontC [GlyphInfo.mk 7 [0x00AD] 0]
          [GlyphPosition.mk 5 6 1 2]).2[0]? =
          some { [GlyphPosition.mk 5 6 1 2].get ⟨0, by decide⟩ with
            xAdvance := 0, yAdvance := 0 }) ∧
    (isDefaultIgnorable (((
        [GlyphInfo.mk 7 [0x00AD] 0].get ⟨0, by decide⟩)).codePoints.headD 0) = false →
      (hideDefaultIgnorables fontC [GlyphInfo.mk 7 [0x00AD] 0]
          [GlyphPosition.mk 5 6 1 2]).1[0]? =
          some ([GlyphInfo.mk 7 [0x00AD] 0].get ⟨0, by decide⟩) ∧
        (hideDefaultIgnorables fontC [GlyphInfo.mk 7 [0x00AD] 0]
          [GlyphPosition.mk 5 6 1 2]).2[0]? =
          some ([GlyphPosition.mk 5 6 1 2].get ⟨0, by decide⟩)) :=
  hideDefaultIgnorables_spec fontC [GlyphInfo.mk 7 [0x00AD] 0]
    [GlyphPosition.mk 5 6 1 2] 0 (by decide) (by decide)

/-- C7: feature enumeration returns the backend's tags in backend order with
a synthetic kern tag appended when the font has a kern table and the list
lacks it; assuming the backend reports no duplicate tags (the backend
enumerations are key sets), the result has no duplicates and contains the
kern tag exactly once whenever the font has a kern table. -/
theorem getAvailableFeatures_spec (font : FontModel) (engine : Option Engine)
    (script language : String)
    (hnd : (backendFeatures engine script language).Nodup) :
    (∃ extra, getAvailableFeatures font engine script language =
        backendFeatures engine script language ++ extra) ∧
      (getAvailableFeatures font engine script language).Nodup ∧
      (font.kern = true →
        (getAvailableFeatures font engine script language).count kernTag = 1) := by
  unfold getAvailableFeatures
  dsimp only
  by_cases h : font.kern = true ∧ kernTag ∉ backendFeatures engine script language
  · rw [if_pos h]
    refine ⟨⟨[kernTag], rfl⟩, ?_, ?_⟩
    · simp [List.nodup_append, hnd, h.2]
    · intro _
      simp [List.count_append, List.count_eq_zero_of_not_mem h.2]
  · rw [if_neg h]
    refine ⟨⟨[], (List.append_nil _).symm⟩, hnd, ?_⟩
    intro hk
    have hmem : kernTag ∈ backendFeatures engine script language := by
      by_contra hnm
      exact h ⟨hk, hnm⟩
    exact List.count_eq_one_of_mem hnd hmem

/-- Witness for C7: a backend-less engine over a font with a kern table. -/
theorem getAvailableFeatures_spec_witness :
    (∃ extra, getAvailableFeatures fontC none kernTag kernTag =
        backendFeatures none kernTag kernTag ++ extra) ∧
      (getAvailableFeatures fontC none kernTag kernTag).Nodup ∧
      (fontC.kern = true →
        (getAvailableFeatures fontC none kernTag kernTag).count kernTag = 1) :=
  getAvailableFeatures_spec fontC none kernTag kernTag (by simp [backendFeatures])

/-- C3: after a layout call, the returned glyph, position and string-index
sequences all have the same length, for any backend substitution (which may
insert or delete units arbitrarily), given the contract that the backend
position operation and both fallback processors mutate their position
sequences in place (hu, hk, he). -/
theorem layout_length_invariant (font : FontModel) (engine : Option Engine)
    (uni kernP : List GlyphInfo → List GlyphPosition → List GlyphPosition)
    (units : List Nat) (features : FeatureMap)
    (hu : ∀ g p, (uni g p).length = p.length)
    (hk : ∀ g p, (kernP g p).length = p.length)
    (he : ∀ e, engine = some e → ∀ g p, ((e.positionFn g p).1).length = p.length)
    (hne : units ≠ []) :
    (layout font engine uni kernP units features).glyphs.length =
        (layout font engine uni kernP units features).positions.length ∧
      (layout font engine uni kernP units features).glyphs.length =
        (layout font engine uni kernP units features).stringIndices.length := by
  by_cases hg : glyphsForString font.cmap units = []
  · unfold layout
    rw [if_pos (by simp [hg])]
    exact ⟨rfl, rfl⟩
  · rw [layout_eq_of_nonempty font engine uni kernP units features hg]
    dsimp only
    have hpg := positionPhase_glyphs font engine uni kernP
      (shapedGlyphs font engine units) features
    have hpl := positionPhase_length font engine uni kernP
      (shapedGlyphs font engine units) features hu hk he
    have hh := hideDefaultIgnorables_lengths font
      (positionPhase font engine uni kernP (shapedGlyphs font engine units) features).glyphs
      (positionPhase font engine uni kernP (shapedGlyphs font engine units) features).positions
    rw [List.length_map, List.length_map, hh.1, hh.2, hpg, hpl]
    exact ⟨rfl, rfl⟩

/-- Witness for C3: a backend whose substitution doubles the sequence. -/
theorem layout_length_invariant_witness :
    (layout fontC (some engineSub) idPos idPos [0x41, 0x42] noFeatures).glyphs.length =
      (layout fontC (some engineSub) idPos idPos [0x41, 0x42] noFeatures).positions.length ∧
    (layout fontC (some engineSub) idPos idPos [0x41, 0x42] noFeatures).glyphs.length =
      (layout fontC (some engineSub) idPos idPos [0x41, 0x42]
        noFeatures).stringIndices.length :=
  layout_length_invariant fontC (some engineSub) idPos idPos [0x41, 0x42] noFeatures
    (fun _ _ => rfl) (fun _ _ => rfl) (by intro e he g p; cases he; rfl) (by decide)

/-- C1 (amended): for every layout call whose cluster sequence is non-empty
(so the position phase is reached), the Legacy Kern Processor runs if and
only if the backend's reported applied-feature set does not include kerning
(including when no backend position operation ran), the caller has not set
the kern feature to false, and the font carries a legacy kern table; when
it runs, the run's kern feature flag is set to applied.  In particular it
never runs when the backend reported handling kerning. -/
theorem legacyKern_gating (font : FontModel) (engine : Option Engine)
    (uni kernP : List GlyphInfo → List GlyphPosition → List GlyphPosition)
    (units : List Nat) (features : FeatureMap)
    (h : glyphsForString font.cmap units ≠ []) :
    (((layout font engine uni kernP units features).ranKern = true) ↔
      (reportedKern (layout font engine uni kernP units features).positioned = false ∧
        features kernTag ≠ some false ∧ font.kern = true)) ∧
    ((layout font engine uni kernP units features).ranKern = true →
      (layout font engine uni kernP units features).features kernTag = some true) := by
  rw [layout_eq_of_nonempty font engine uni kernP units features h]
  dsimp only
  exact ⟨positionPhase_ranKern_iff font engine uni kernP (shapedGlyphs font engine units)
      features,
    positionPhase_kernFlag font engine uni kernP (shapedGlyphs font engine units) features⟩

/-- Witness for C1 on a concrete backend-less call over one letter. -/
theorem legacyKern_gating_witness :
    (((layout fontC none idPos idPos [0x41] noFeatures).ranKern = true) ↔
      (reportedKern (layout fontC none idPos idPos [0x41] noFeatures).positioned = false ∧
        noFeatures kernTag ≠ some false ∧ fontC.kern = true)) ∧
    ((layout fontC none idPos idPos [0x41] noFeatures).ranKern = true →
      (layout fontC none idPos idPos [0x41] noFeatures).features kernTag = some true) :=
  legacyKern_gating fontC none idPos idPos [0x41] noFeatures (by decide)

/-- Counterexample to C1 as stated: the non-empty string consisting of one
unattached variation selector produces no cluster, so layout returns before
the position phase and the Legacy Kern Processor does not run, although no
backend reported kerning, the caller did not disable the kern feature, and
the font has a legacy kern table. -/
theorem legacyKern_gating_counterexample :
    ([0xFE00] : List Nat) ≠ [] ∧
      (layout fontC none idPos idPos [0xFE00] noFeatures).ranKern = false ∧
      reportedKern (layout fontC none idPos idPos [0xFE00] noFeatures).positioned = false ∧
      noFeatures kernTag ≠ some false ∧ fontC.kern = true := by
  decide

/-- C2 (amended): for every layout call whose cluster sequence is non-empty,
the Fallback Mark Positioner runs if and only if the backend position step
produced no applied-feature record (no backend, no position operation, or a
null return) and, additionally, either no backend exists or the backend
declares it wants supplementary positioning.  In particular it does not run
whenever the backend's position operation reported an applied feature set,
even if the backend declares fallbackPosition. -/
theorem fallbackMark_gating (font : FontModel) (engine : Option Engine)
    (uni kernP : List GlyphInfo → List GlyphPosition → List GlyphPosition)
    (units : List Nat) (features : FeatureMap)
    (h : glyphsForString font.cmap units ≠ []) :
    (layout font engine uni kernP units features).ranFallback = true ↔
      ((layout font engine uni kernP units features).positioned = none ∧
        (engine.map Engine.fallbackPosition).getD true = true) := by
  rw [layout_eq_of_nonempty font engine uni kernP units features h]
  dsimp only
  exact positionPhase_ranFallback_iff font engine uni kernP
    (shapedGlyphs font engine units) features

/-- Witness for C2 on a concrete backend-less call over one letter. -/
theorem fallbackMark_gating_witness :
    (layout fontC none idPos idPos [0x41] noFeatures).ranFallback = true ↔
      ((layout fontC none idPos idPos [0x41] noFeatures).positioned = none ∧
        ((none : Option Engine).map Engine.fallbackPosition).getD true = true) :=
  fallbackMark_gating fontC none idPos idPos [0x41] noFeatures (by decide)

/-- Counterexample to C2 as stated: a backend that declares it wants
supplementary positioning but whose position operation reports an applied
feature set; the claim requires the Fallback Mark Positioner to run, yet it
does not. -/
theorem fallbackMark_gating_counterexample :
    engineC.fallbackPosition = true ∧ engineC.hasPosition = true ∧
      (layout fontC (some engineC) idPos idPos [0x41] noFeatures).ranFallback = false := by
  decide

/-- C5 (amended): the Cluster Builder equals the reference cluster
decomposition, and every unit it emits records as its text offset the
offset of the last code unit of its base codepoint: st + l - 1, where the
base codepoint is decoded from offset st and occupies l code units.  This
is the cluster's starting offset exactly when the base occupies a single
code unit; for a surrogate-pair base it is the offset of the pair's second
code unit. -/
theorem clusterBuilder_offsets (cmap : Cmap) (s : List Nat) :
    glyphsForString cmap s = clusterize cmap none (decodePoints s) ∧
    ∀ u ∈ glyphsForString cmap s, ∃ st l,
      (st, u.codePoints.headD 0, l) ∈ decodePoints s ∧
      decodeNext s st = (u.codePoints.headD 0, st + l) ∧ 1 ≤ l ∧
      u.stringIndex = (st : Int) + l - 1 := by
  refine ⟨glyphsForString_eq_clusterize cmap s, ?_⟩
  intro u hu
  rw [glyphsForString_eq_clusterize cmap s] at hu
  rcases clusterize_offsets cmap (decodePoints s) none u hu with
    ⟨b, be, hpend, _, _⟩ | ⟨st, l, hmem, hidx⟩
  · exact absurd hpend (by simp)
  · obtain ⟨hdec, hlen⟩ := decodePoints_mem s (st, u.codePoints.headD 0, l) hmem
    exact ⟨st, l, hmem, hdec, hlen, hidx⟩

/-- Witness for C5: the unit produced for a lone surrogate-pair codepoint. -/
theorem clusterBuilder_offsets_witness :
    ∃ st l,
      (st, (GlyphInfo.mk (cmapC.lookup1 0x10000) [0x10000] 1).codePoints.headD 0, l) ∈
          decodePoints [0xD800, 0xDC00] ∧
        decodeNext [0xD800, 0xDC00] st =
          ((GlyphInfo.mk (cmapC.lookup1 0x10000) [0x10000] 1).codePoints.headD 0, st + l) ∧
        1 ≤ l ∧
        (GlyphInfo.mk (cmapC.lookup1 0x10000) [0x10000] 1).stringIndex = (st : Int) + l - 1 :=
  (clusterBuilder_offsets cmapC [0xD800, 0xDC00]).2
    (GlyphInfo.mk (cmapC.lookup1 0x10000) [0x10000] 1) (by decide)

/-- Counterexample to C5 as stated: for the input whose first cluster is the
surrogate pair D800 DC00 (beginning at code-unit offset 0), the emitted unit
records offset 1, not the offset at which its cluster begins. -/
theorem clusterBuilder_offsets_counterexample :
    (glyphsForString cmapC [0xD800, 0xDC00, 0x41]).map GlyphInfo.codePoints =
        [[0x10000], [0x41]] ∧
      (glyphsForString cmapC [0xD800, 0xDC00, 0x41]).map GlyphInfo.stringIndex = [1, 2] ∧
      (1 : Int) ≠ 0 := by
  decide

/-- C6 (amended): within any string, an ordinary codepoint immediately
followed by a variation selector yields exactly one two-codepoint unit via
the two-argument lookup (with the surrounding output unchanged); two
consecutive ordinary codepoints yield two separate units, the first always a
single-codepoint unit via the one-argument lookup, and the second likewise
provided it is not itself immediately followed by a variation selector. -/
theorem vsPairing (cmap : Cmap) (s : List Nat) (ts1 : List DecodedEntry)
    (st1 b l1 st2 c2 l2 : Nat) (ts2 : List DecodedEntry)
    (hdec : decodePoints s = ts1 ++ (st1, b, l1) :: (st2, c2, l2) :: ts2)
    (hb : isVS b = false) :
    (isVS c2 = true → glyphsForString cmap s =
        cEmits cmap none ts1 ++ cFlush cmap (pendAfter none ts1) ++
          [GlyphInfo.mk (cmap.lookup2 b c2) [b, c2] (((st1 + l1 : Nat) : Int) - 1)] ++
          clusterize cmap none ts2) ∧
    (isVS c2 = false → glyphsForString cmap s =
        cEmits cmap none ts1 ++ cFlush cmap (pendAfter none ts1) ++
          [GlyphInfo.mk (cmap.lookup1 b) [b] (((st1 + l1 : Nat) : Int) - 1)] ++
          clusterize cmap (some (c2, st2 + l2)) ts2) ∧
    (isVS c2 = false → (ts2 = [] ∨ ∃ e3 ts3, ts2 = e3 :: ts3 ∧ isVS e3.2.1 = false) →
      ∃ tail, glyphsForString cmap s =
        cEmits cmap none ts1 ++ cFlush cmap (pendAfter none ts1) ++
          [GlyphInfo.mk (cmap.lookup1 b) [b] (((st1 + l1 : Nat) : Int) - 1)] ++
          [GlyphInfo.mk (cmap.lookup1 c2) [c2] (((st2 + l2 : Nat) : Int) - 1)] ++ tail) := by
  have hchar := glyphsForString_eq_clusterize cmap s
  rw [hdec, clusterize_append] at hchar
  refine ⟨?_, ?_, ?_⟩
  · intro hv
    rw [hchar]
    simp [clusterize, cStepEmit, cStepPending, cFlush, hb, hv, List.append_assoc]
  · intro hv
    rw [hchar]
    simp [clusterize, cStepEmit, cStepPending, cFlush, hb, hv, List.append_assoc]
  · intro hv hctx
    rw [hchar]
    rcases hctx with hnil | ⟨e3, ts3, hts, hv3⟩
    · subst hnil
      refine ⟨[], ?_⟩
      simp [clusterize, cStepEmit, cStepPending, cFlush, hb, hv, List.append_assoc]
    · subst hts
      refine ⟨clusterize cmap (cStepPending (some (c2, st2 + l2)) e3) ts3, ?_⟩
      simp [clusterize, cStepEmit, cStepPending, cFlush, hb, hv, hv3, List.append_assoc]

/-- Witness for C6: the string consisting of a letter followed by a
variation selector. -/
theorem vsPairing_witness :
    (isVS 0xFE00 = true → glyphsForString cmapC [0x41, 0xFE00] =
        cEmits cmapC none [] ++ cFlush cmapC (pendAfter none []) ++
          [GlyphInfo.mk (cmapC.lookup2 0x41 0xFE00) [0x41, 0xFE00]
            (((0 + 1 : Nat) : Int) - 1)] ++
          clusterize cmapC none []) ∧
    (isVS 0xFE00 = false → glyphsForString cmapC [0x41, 0xFE00] =
        cEmits cmapC none [] ++ cFlush cmapC (pendAfter none []) ++
          [GlyphInfo.mk (cmapC.lookup1 0x41) [0x41] (((0 + 1 : Nat) : Int) - 1)] ++
          clusterize cmapC (some (0xFE00, 1 + 1)) []) ∧
    (isVS 0xFE00 = false →
      (([] : List DecodedEntry) = [] ∨
        ∃ e3 ts3, ([] : List DecodedEntry) = e3 :: ts3 ∧ isVS e3.2.1 = false) →
      ∃ tail, glyphsForString cmapC [0x41, 0xFE00] =
        cEmits cmapC none [] ++ cFlush cmapC (pendAfter none []) ++
          [GlyphInfo.mk (cmapC.lookup1 0x41) [0x41] (((0 + 1 : Nat) : Int) - 1)] ++
          [GlyphInfo.mk (cmapC.lookup1 0xFE00) [0xFE00] (((1 + 1 : Nat) : Int) - 1)] ++
          tail) :=
  vsPairing cmapC [0x41, 0xFE00] [] 0 0x41 1 1 0xFE00 1 [] (by decide) (by decide)

/-- Counterexample to C6 as stated: in the string letter, letter, variation
selector, the two letters are consecutive ordinary codepoints, yet the
second letter's unit carries two codepoints (it pairs with the following
selector), so the claim that both yield single-codepoint units resolved via
the one-argument lookup fails. -/
theorem vsPairing_counterexample :
    (glyphsForString cmapC [0x41, 0x42, 0xFE00]).map GlyphInfo.codePoints =
        [[0x41], [0x42, 0xFE00]] ∧
      isVS 0x41 = false ∧ isVS 0x42 = false ∧
      (glyphsForString cmapC [0x41, 0x42, 0xFE00]).map GlyphInfo.id =
        [cmapC.lookup1 0x41, cmapC.lookup2 0x42 0xFE00] := by
  decide

/-- C10: a variation selector that starts the string or directly follows
another variation selector produces no GlyphUnit at all: the output equals
the output for the surrounding stream with the selector's entry deleted,
and the following entries are processed with no pending base. -/
theorem loneVS_dropped (cmap : Cmap) (s : List Nat) (ts1 : List DecodedEntry)
    (st v l : Nat) (ts2 : List DecodedEntry)
    (hdec : decodePoints s = ts1 ++ (st, v, l) :: ts2)
    (hv : isVS v = true)
    (hctx : ts1 = [] ∨ ∃ ts0 e, ts1 = ts0 ++ [e] ∧ isVS e.2.1 = true) :
    glyphsForString cmap s = cEmits cmap none ts1 ++ clusterize cmap none ts2 := by
  have hpend : pendAfter none ts1 = none := by
    rcases hctx with hnil | ⟨ts0, e, hts, hvse⟩
    · subst hnil; rfl
    · subst hts
      unfold pendAfter
      rw [List.foldl_append]
      simp [cStepPending, hvse]
  have hchar := glyphsForString_eq_clusterize cmap s
  rw [hdec, clusterize_append, hpend] at hchar
  rw [hchar]
  simp [clusterize, cStepEmit, cStepPending, hv]

/-- Witness for C10: a string beginning with a lone variation selector
followed by a letter. -/
theorem loneVS_dropped_witness :
    glyphsForString cmapC [0xFE00, 0x41] =
      cEmits cmapC none [] ++ clusterize cmapC none [(1, 0x41, 1)] :=
  loneVS_dropped cmapC [0xFE00, 0x41] [] 0 0xFE00 1 [(1, 0x41, 1)]
    (by decide) (by decide) (Or.inl rfl)

end Claims

end Fontkit
